import Mathlib

/-!
Shallow embedding of `resize_pngs.py` and verification of its specification.

The repository has two components:

* `trim_transparent_edges` — a pure function on decoded RGBA images that is
  meant to crop away fully transparent border rows and columns.  An image is
  embedded as a list of rows of RGBA pixels (the `height × width × 4` numpy
  array built by `np.array of the RGBA conversion`); channel values are `Nat`.
  Every numpy step of the source is translated one-for-one, including the
  truthiness semantics of `ndarray.any()` on the *index* arrays returned by
  `np.where` (`any` is true iff some element of the array is non-zero).

* `resize_replace_and_backup` — the batch routine.  The filesystem is embedded
  as an explicit state: a list of existing directories and an association list
  from `(folder, filename)` paths to file contents.  A file content is either
  a decodable image or `corrupt` (decoding raises).  Exceptions raised by the
  external world (`shutil.move`, `Image.save`) are injected through a
  per-file fault oracle; `Image.open` fails exactly on `corrupt` contents.
  Pillow's `Image.crop` and `Image.resize` are library code: `crop` is
  modelled by its documented row/column slicing, and `resize` by a total
  function whose output dimensions are exactly the requested ones, with the
  resampling kernel abstracted to a sampling function (no property proved
  here depends on resampled channel values, only on dimensions and on which
  file slots hold which image).  The console output of the routine is
  embedded as a list of log lines.
-/

set_option maxHeartbeats 1000000

namespace ResizePngs

/-- One RGBA pixel, as one cell of the `np.array of the RGBA conversion` array. -/
structure Pixel where
  r : Nat
  g : Nat
  b : Nat
  a : Nat
deriving DecidableEq

/-- The pixel grid of a decoded image: a list of rows. -/
abbrev Img := List (List Pixel)

/-- Default pixel (fully transparent black), used for out-of-range reads. -/
def defPixel : Pixel := ⟨0, 0, 0, 0⟩

/-- Image height, `np_img.shape[0]`. -/
def height (img : Img) : Nat := img.length

/-- Image width, `np_img.shape[1]`. -/
def width (img : Img) : Nat := (img.headD []).length

/-- A numpy array is rectangular: every row has the common width. -/
abbrev Rect (img : Img) : Prop := ∀ row ∈ img, row.length = width img

/-- Pixel access `np_img[i, j]` (default pixel when out of range). -/
def pixelAt (img : Img) (i j : Nat) : Pixel := (img.getD i []).getD j defPixel

/-- Test for alpha strictly greater than zero on one pixel. -/
def hasAlpha (p : Pixel) : Bool := decide (0 < p.a)

/-- Row content test `np.any(alpha_channel > 0, axis=1)` at row `i`. -/
def rowHasContent (img : Img) (i : Nat) : Bool := (img.getD i []).any hasAlpha

/-- Column content test `np.any(alpha_channel > 0, axis=0)` at column `j`. -/
def colHasContent (img : Img) (j : Nat) : Bool :=
  img.any (fun row => hasAlpha (row.getD j defPixel))

/-- Index array `np.where(np.any(alpha_channel > 0, axis=1))[0]`: the sorted
list of row indices holding a pixel with positive alpha. -/
def non_transparent_rows (img : Img) : List Nat :=
  (List.range (height img)).filter (rowHasContent img)

/-- Index array `np.where(np.any(alpha_channel > 0, axis=0))[0]`: the sorted
list of column indices holding a pixel with positive alpha. -/
def non_transparent_cols (img : Img) : List Nat :=
  (List.range (width img)).filter (colHasContent img)

/-- Truthiness of `ndarray.any()` on an integer index array: true iff some
element of the array is non-zero.  (This is the test the source applies to
the `np.where` index arrays — it is *not* a non-emptiness test.) -/
def idxAny (l : List Nat) : Bool := l.any (fun x => decide (x ≠ 0))

/-- Pillow's `img.crop((left, top, right, bottom))`: the sub-image of rows
`top ≤ i < bottom` and columns `left ≤ j < right`. -/
def crop (img : Img) (left top right bottom : Nat) : Img :=
  ((img.drop top).take (bottom - top)).map (fun row => (row.drop left).take (right - left))

/-- Function `trim_transparent_edges` of `resize_pngs.py`, line for line:
compute the non-transparent row and column index arrays; if
`not (rows.any() and cols.any())` return the image unchanged; otherwise crop
to `(left, top, right + 1, bottom + 1)` where `top`/`bottom` are the first
and last entries of the row index array and `left`/`right` those of the
column index array. -/
def trim_transparent_edges (img : Img) : Img :=
  if !(idxAny (non_transparent_rows img) && idxAny (non_transparent_cols img)) then
    img
  else
    crop img
      ((non_transparent_cols img).headD 0)
      ((non_transparent_rows img).headD 0)
      ((non_transparent_cols img).getLastD 0 + 1)
      ((non_transparent_rows img).getLastD 0 + 1)

/-- Model of Pillow's `img.resize((w, h), Image.Resampling.LANCZOS)`: the
output grid has exactly `h` rows of exactly `w` pixels each; each output
pixel is drawn from the source by a sampling function.  The Lanczos kernel
itself is external library code and is abstracted here; no verified property
depends on the resampled channel values. -/
def pilResize (img : Img) (w h : Nat) : Img :=
  (List.range h).map (fun i =>
    (List.range w).map (fun j =>
      (img.getD (i * height img / h) []).getD (j * width img / w) defPixel))

/-- Contents of a file on disk: a decodable PNG image, or bytes on which
`Image.open` raises. -/
inductive Content where
  | png (img : Img)
  | corrupt
deriving DecidableEq

/-- A path is a (folder, filename) pair; the source only ever joins one
folder component with one filename (`os.path.join(folder, filename)`). -/
abbrev FPath := String × String

/-- The filesystem state: existing directories and the files they hold. -/
structure FS where
  dirs : List String
  files : List (FPath × Content)
deriving DecidableEq

/-- Model of `os.path.isdir`. -/
def FS.isdir (fs : FS) (d : String) : Bool := fs.dirs.contains d

/-- Read the content stored at a path, if any. -/
def FS.lookup (fs : FS) (p : FPath) : Option Content :=
  (fs.files.find? (fun e => decide (e.1 = p))).map (fun e => e.2)

/-- Write content at a path, replacing any previous file there. -/
def FS.setFile (fs : FS) (p : FPath) (c : Content) : FS :=
  ⟨fs.dirs, (p, c) :: fs.files.filter (fun e => decide (e.1 ≠ p))⟩

/-- Delete the file at a path. -/
def FS.removeFile (fs : FS) (p : FPath) : FS :=
  ⟨fs.dirs, fs.files.filter (fun e => decide (e.1 ≠ p))⟩

/-- Model of `os.makedirs`. -/
def FS.mkdir (fs : FS) (d : String) : FS := ⟨d :: fs.dirs, fs.files⟩

/-- Model of `os.listdir`: the names of the entries of a folder. -/
def FS.listdir (fs : FS) (d : String) : List String :=
  (fs.files.filter (fun e => decide (e.1.1 = d))).map (fun e => e.1.2)

/-- ASCII lowercasing of one character, as `str.lower` acts on the ASCII
range (the filenames handled by this embedding are ASCII). -/
def lowerChar (c : Char) : Char :=
  if c.toNat < 65 || 90 < c.toNat then c else Char.ofNat (c.toNat + 32)

/-- Eligibility test of the source (lowercase the filename, then test for
the `.png` suffix), computed structurally over the character list. -/
def isPngName (name : String) : Bool :=
  List.isSuffixOf ".png".data (name.data.map lowerChar)

/-- The `.png` entries of the target folder, as enumerated by the source. -/
def eligible (fs : FS) (tf : String) : List String :=
  (fs.listdir tf).filter isPngName

/-- Which stage of the per-file pipeline raised. -/
inductive Cause where
  | moveFailed
  | decodeFailed
  | saveFailed
deriving DecidableEq

/-- The console lines printed by `resize_replace_and_backup`. -/
inductive LogLine where
  | errFolderNotFound (folder : String)
  | infoCreatedBackup (folder : String)
  | infoNoPngs (folder : String)
  | infoCount (n : Nat)
  | fileOk (name : String)
  | fileErr (name : String) (cause : Cause)
  | done
deriving DecidableEq

/-- Fault oracle for the external world: whether `shutil.move`, resp.
`Image.save`, raises for this file. -/
structure Faults where
  moveFails : Bool
  saveFails : Bool
deriving DecidableEq

/-- The body of the per-file `try` block of `resize_replace_and_backup`:
move the file from `(tf, filename)` to `(bf, filename)`, open the backed-up
file, trim it, resize it, and save the result to the original path.  Any
raise is caught at this boundary and turned into a per-file error line. -/
def processFile (tf bf : String) (w h : Nat) (flt : Faults) (fs : FS)
    (filename : String) : FS × LogLine :=
  if flt.moveFails then (fs, .fileErr filename .moveFailed)
  else
    match fs.lookup (tf, filename) with
    | none => (fs, .fileErr filename .moveFailed)
    | some c =>
      let fs1 := (fs.removeFile (tf, filename)).setFile (bf, filename) c
      match c with
      | .corrupt => (fs1, .fileErr filename .decodeFailed)
      | .png img =>
        let out := pilResize (trim_transparent_edges img) w h
        if flt.saveFails then (fs1, .fileErr filename .saveFailed)
        else (fs1.setFile (tf, filename) (.png out), .fileOk filename)

/-- The `for filename in png_files` loop: process each file in turn,
collecting the per-file log lines. -/
def processAll (tf bf : String) (w h : Nat) (faults : String → Faults) :
    FS → List String → FS × List LogLine
  | fs, [] => (fs, [])
  | fs, n :: rest =>
    let r := processFile tf bf w h (faults n) fs n
    let rr := processAll tf bf w h faults r.1 rest
    (rr.1, r.2 :: rr.2)

/-- Batch routine `resize_replace_and_backup` of `resize_pngs.py`: check the
target folder exists, create the backup folder if absent, enumerate the
`.png` entries, and process them one by one; finally print the completion
line. -/
def resize_replace_and_backup (tf bf : String) (w h : Nat)
    (faults : String → Faults) (fs : FS) : FS × List LogLine :=
  if !fs.isdir tf then (fs, [.errFolderNotFound tf])
  else
    let step1 : FS × List LogLine :=
      if !fs.isdir bf then (fs.mkdir bf, [.infoCreatedBackup bf]) else (fs, [])
    let pngs := (step1.1.listdir tf).filter isPngName
    if pngs.isEmpty then (step1.1, step1.2 ++ [.infoNoPngs tf])
    else
      let r := processAll tf bf w h faults step1.1 pngs
      (r.1, step1.2 ++ .infoCount pngs.length :: (r.2 ++ [.done]))

/-- A log line is the per-file report for `name`: success, or failure
carrying the cause. -/
def reportFor (name : String) (line : LogLine) : Prop :=
  line = .fileOk name ∨ ∃ cause, line = .fileErr name cause

/-- A 2×2 image whose only non-transparent pixel sits at row 0, column 0. -/
def cornerImg : Img := [[⟨255, 0, 0, 255⟩, defPixel], [defPixel, defPixel]]

/-- A 3×3 image whose only non-transparent pixel sits at the centre. -/
def centerImg : Img :=
  [[defPixel, defPixel, defPixel],
   [defPixel, ⟨10, 20, 30, 40⟩, defPixel],
   [defPixel, defPixel, defPixel]]

/-- A state with a target folder holding one undecodable `.png` file. -/
def fsCorrupt : FS := ⟨["src", "bak"], [(("src", "x.png"), Content.corrupt)]⟩

/-- A state with an existing target folder holding no files at all, and no
backup folder. -/
def fsEmptySrc : FS := ⟨["src"], []⟩

/-- A batch of three files where the middle one cannot be decoded. -/
def wFS : FS := ⟨["src", "bak"],
  [(("src", "a.png"), Content.png cornerImg),
   (("src", "b.png"), Content.corrupt),
   (("src", "c.png"), Content.png centerImg)]⟩

/-! ### Association-list filesystem lemmas -/

theorem find?_filter_ne (l : List (FPath × Content)) (p q : FPath) (hpq : q ≠ p) :
    (l.filter (fun e => decide (e.1 ≠ p))).find? (fun e => decide (e.1 = q)) =
      l.find? (fun e => decide (e.1 = q)) := by
  induction l with
  | nil => rfl
  | cons e t ih =>
    rw [List.filter_cons]
    by_cases hep : e.1 = p
    · have d1 : decide (e.1 ≠ p) = false := by simp [hep]
      have d2 : decide (e.1 = q) = false := by
        simp only [decide_eq_false_iff_not]
        intro hh
        exact hpq (hh ▸ hep)
      rw [d1, if_neg Bool.false_ne_true, List.find?_cons, d2, ih]
    · have d1 : decide (e.1 ≠ p) = true := by simpa using hep
      rw [d1, if_pos rfl, List.find?_cons, List.find?_cons]
      cases hq : decide (e.1 = q) with
      | true => rfl
      | false => exact ih

theorem lookup_setFile_same (fs : FS) (p : FPath) (c : Content) :
    (fs.setFile p c).lookup p = some c := by
  simp [FS.setFile, FS.lookup, List.find?_cons]

theorem lookup_setFile_other (fs : FS) (p q : FPath) (c : Content) (h : q ≠ p) :
    (fs.setFile p c).lookup q = fs.lookup q := by
  have h1 : ¬(p = q) := fun hh => h hh.symm
  simp only [FS.setFile, FS.lookup, List.find?_cons, h1, decide_False]
  rw [find?_filter_ne _ _ _ h]

theorem lookup_removeFile_same (fs : FS) (p : FPath) :
    (fs.removeFile p).lookup p = none := by
  unfold FS.removeFile FS.lookup
  rw [List.find?_eq_none.mpr]
  · rfl
  · intro e he
    simp only [List.mem_filter, decide_eq_true_eq] at he
    simpa using he.2

theorem lookup_removeFile_other (fs : FS) (p q : FPath) (h : p ≠ q) :
    (fs.removeFile q).lookup p = fs.lookup p := by
  simp only [FS.removeFile, FS.lookup]
  rw [find?_filter_ne _ _ _ h]

theorem listdir_mkdir (fs : FS) (d t : String) :
    (fs.mkdir d).listdir t = fs.listdir t := rfl

theorem files_mkdir (fs : FS) (d : String) : (fs.mkdir d).files = fs.files := rfl

theorem lookup_mkdir (fs : FS) (d : String) (p : FPath) :
    (fs.mkdir d).lookup p = fs.lookup p := rfl

/-! ### Dimensions of the resize model -/

theorem height_pilResize (img : Img) (w h : Nat) : height (pilResize img w h) = h := by
  simp [pilResize, height]

theorem width_pilResize (img : Img) (w h : Nat) (hh : 0 < h) :
    width (pilResize img w h) = w := by
  cases h with
  | zero => exact absurd hh (by simp)
  | succ k => simp [pilResize, width, List.range_succ_eq_map]

/-! ### Claim theorems: the batch routine -/

/-- C9 (confirmed): when the source folder does not exist, the routine
reports the fatal configuration error and returns with the filesystem
completely unchanged — the backup folder is not created and no file is
moved or written. -/
theorem missing_source_folder_no_side_effects (tf bf : String) (w h : Nat)
    (faults : String → Faults) (fs : FS) (hdir : fs.isdir tf = false) :
    resize_replace_and_backup tf bf w h faults fs = (fs, [.errFolderNotFound tf]) := by
  simp [resize_replace_and_backup, hdir]

theorem missing_source_folder_no_side_effects_witness :
    (FS.mk [] []).isdir "original_pngs" = false ∧
    resize_replace_and_backup "original_pngs" "used_pngs" 1290 2796
        (fun _ => ⟨false, false⟩) (FS.mk [] []) =
      (FS.mk [] [], [.errFolderNotFound "original_pngs"]) :=
  ⟨by decide,
   missing_source_folder_no_side_effects "original_pngs" "used_pngs" 1290 2796
     (fun _ => ⟨false, false⟩) (FS.mk [] []) (by decide)⟩

/-- C2 (confirmed): the per-file pipeline moves the file to the backup path
before attempting decode, trim, resize or encode; hence whenever the move
succeeded but a later step fails, the original content already sits at the
backup path and the source path holds no file (in particular no partial
output of the decode/trim/resize stages, which never write to disk). -/
theorem backup_before_mutation (tf bf : String) (w h : Nat) (flt : Faults)
    (fs : FS) (filename : String) (c : Content)
    (hfolders : tf ≠ bf)
    (hmv : flt.moveFails = false)
    (hsrc : fs.lookup (tf, filename) = some c)
    (hfail : ∃ cause, (processFile tf bf w h flt fs filename).2 = .fileErr filename cause) :
    (processFile tf bf w h flt fs filename).1.lookup (bf, filename) = some c ∧
    (processFile tf bf w h flt fs filename).1.lookup (tf, filename) = none := by
  have hpq : ((tf, filename) : FPath) ≠ (bf, filename) := by
    intro hh
    exact hfolders (congrArg Prod.fst hh)
  cases c with
  | corrupt =>
    simp only [processFile, hmv, Bool.false_eq_true, if_false, hsrc]
    exact ⟨lookup_setFile_same _ _ _, by
      rw [lookup_setFile_other _ _ _ _ hpq, lookup_removeFile_same]⟩
  | png img =>
    by_cases hsv : flt.saveFails = true
    · simp only [processFile, hmv, Bool.false_eq_true, if_false, hsrc, hsv, if_true]
      exact ⟨lookup_setFile_same _ _ _, by
        rw [lookup_setFile_other _ _ _ _ hpq, lookup_removeFile_same]⟩
    · exfalso
      rcases hfail with ⟨cause, hline⟩
      rw [Bool.not_eq_true] at hsv
      simp [processFile, hmv, hsrc, hsv] at hline

theorem backup_before_mutation_witness :
    ("src" : String) ≠ "bak" ∧
    (Faults.mk false false).moveFails = false ∧
    fsCorrupt.lookup ("src", "x.png") = some Content.corrupt ∧
    (∃ cause, (processFile "src" "bak" 3 3 ⟨false, false⟩ fsCorrupt "x.png").2 =
      .fileErr "x.png" cause) ∧
    (processFile "src" "bak" 3 3 ⟨false, false⟩ fsCorrupt "x.png").1.lookup ("bak", "x.png") =
      some Content.corrupt ∧
    (processFile "src" "bak" 3 3 ⟨false, false⟩ fsCorrupt "x.png").1.lookup ("src", "x.png") =
      none := by
  refine ⟨by decide, rfl, by decide, ⟨Cause.decodeFailed, by decide⟩, ?_⟩
  exact backup_before_mutation "src" "bak" 3 3 ⟨false, false⟩ fsCorrupt "x.png"
    Content.corrupt (by decide) rfl (by decide) ⟨Cause.decodeFailed, by decide⟩

/-- C3 counterexample: with an undecodable file, the move succeeds and the
decode fails; afterwards the backup holds the original but the source slot
is empty, so neither arm (a) "backup holds the original and the source
holds the transformed image" nor arm (b) "the move failed, the source still
holds the untouched original and no backup entry exists" of the claimed
two-way disjunction is satisfied. -/
theorem backup_disjunction_counterexample :
    (processFile "src" "bak" 4 4 ⟨false, false⟩ fsCorrupt "x.png").1.lookup ("bak", "x.png") =
      some Content.corrupt ∧
    (processFile "src" "bak" 4 4 ⟨false, false⟩ fsCorrupt "x.png").1.lookup ("src", "x.png") =
      none ∧
    ¬(((processFile "src" "bak" 4 4 ⟨false, false⟩ fsCorrupt "x.png").1.lookup ("bak", "x.png") =
          some Content.corrupt ∧
        (processFile "src" "bak" 4 4 ⟨false, false⟩ fsCorrupt "x.png").1.lookup ("src", "x.png") ≠
          none) ∨
      ((processFile "src" "bak" 4 4 ⟨false, false⟩ fsCorrupt "x.png").1.lookup ("src", "x.png") =
          some Content.corrupt ∧
        (processFile "src" "bak" 4 4 ⟨false, false⟩ fsCorrupt "x.png").1.lookup ("bak", "x.png") =
          none)) := by
  decide

/-- C3 (corrected): after the per-file pipeline, exactly one of three cases
holds: (1) success — the backup holds the original and the source holds the
transformed image; (2) the backup-move itself failed — the filesystem is
completely untouched, so the source still holds the original and no backup
entry was created; (3) the move succeeded but a later step failed — the
backup holds the original and the source path holds no file.  The three
cases are mutually exclusive through their tags (the move flag and the
reported line). -/
theorem backup_safety_trichotomy (tf bf : String) (w h : Nat) (flt : Faults)
    (fs : FS) (filename : String) (c : Content)
    (hfolders : tf ≠ bf)
    (hsrc : fs.lookup (tf, filename) = some c) :
    (flt.moveFails = false ∧
      (processFile tf bf w h flt fs filename).2 = .fileOk filename ∧
      (∃ img, c = .png img ∧
        (processFile tf bf w h flt fs filename).1.lookup (bf, filename) = some c ∧
        (processFile tf bf w h flt fs filename).1.lookup (tf, filename) =
          some (.png (pilResize (trim_transparent_edges img) w h)))) ∨
    (flt.moveFails = true ∧
      (processFile tf bf w h flt fs filename).1 = fs ∧
      (processFile tf bf w h flt fs filename).2 = .fileErr filename .moveFailed) ∨
    (flt.moveFails = false ∧
      (∃ cause, (processFile tf bf w h flt fs filename).2 = .fileErr filename cause) ∧
      (processFile tf bf w h flt fs filename).1.lookup (bf, filename) = some c ∧
      (processFile tf bf w h flt fs filename).1.lookup (tf, filename) = none) := by
  have hpq : ((tf, filename) : FPath) ≠ (bf, filename) := by
    intro hh
    exact hfolders (congrArg Prod.fst hh)
  by_cases hmv : flt.moveFails = true
  · exact Or.inr (Or.inl ⟨hmv, by simp [processFile, hmv], by simp [processFile, hmv]⟩)
  · rw [Bool.not_eq_true] at hmv
    cases c with
    | corrupt =>
      refine Or.inr (Or.inr ⟨hmv, ⟨.decodeFailed, ?_⟩, ?_, ?_⟩)
      · simp [processFile, hmv, hsrc]
      · simp only [processFile, hmv, Bool.false_eq_true, if_false, hsrc]
        exact lookup_setFile_same _ _ _
      · simp only [processFile, hmv, Bool.false_eq_true, if_false, hsrc]
        rw [lookup_setFile_other _ _ _ _ hpq, lookup_removeFile_same]
    | png img =>
      by_cases hsv : flt.saveFails = true
      · refine Or.inr (Or.inr ⟨hmv, ⟨.saveFailed, ?_⟩, ?_, ?_⟩)
        · simp [processFile, hmv, hsrc, hsv]
        · simp only [processFile, hmv, Bool.false_eq_true, if_false, hsrc, hsv, if_true]
          exact lookup_setFile_same _ _ _
        · simp only [processFile, hmv, Bool.false_eq_true, if_false, hsrc, hsv, if_true]
          rw [lookup_setFile_other _ _ _ _ hpq, lookup_removeFile_same]
      · rw [Bool.not_eq_true] at hsv
        refine Or.inl ⟨hmv, by simp [processFile, hmv, hsrc, hsv], img, rfl, ?_, ?_⟩
        · simp only [processFile, hmv, Bool.false_eq_true, if_false, hsrc, hsv]
          rw [lookup_setFile_other _ _ _ _ hpq.symm, lookup_setFile_same]
        · simp only [processFile, hmv, Bool.false_eq_true, if_false, hsrc, hsv]
          exact lookup_setFile_same _ _ _

theorem backup_safety_trichotomy_witness :
    ("src" : String) ≠ "bak" ∧
    fsCorrupt.lookup ("src", "x.png") = some Content.corrupt ∧
    (((Faults.mk false false).moveFails = false ∧
      (processFile "src" "bak" 4 4 ⟨false, false⟩ fsCorrupt "x.png").2 = .fileOk "x.png" ∧
      (∃ img, Content.corrupt = .png img ∧
        (processFile "src" "bak" 4 4 ⟨false, false⟩ fsCorrupt "x.png").1.lookup ("bak", "x.png") =
          some Content.corrupt ∧
        (processFile "src" "bak" 4 4 ⟨false, false⟩ fsCorrupt "x.png").1.lookup ("src", "x.png") =
          some (.png (pilResize (trim_transparent_edges img) 4 4)))) ∨
    ((Faults.mk false false).moveFails = true ∧
      (processFile "src" "bak" 4 4 ⟨false, false⟩ fsCorrupt "x.png").1 = fsCorrupt ∧
      (processFile "src" "bak" 4 4 ⟨false, false⟩ fsCorrupt "x.png").2 =
        .fileErr "x.png" .moveFailed) ∨
    ((Faults.mk false false).moveFails = false ∧
      (∃ cause, (processFile "src" "bak" 4 4 ⟨false, false⟩ fsCorrupt "x.png").2 =
        .fileErr "x.png" cause) ∧
      (processFile "src" "bak" 4 4 ⟨false, false⟩ fsCorrupt "x.png").1.lookup ("bak", "x.png") =
        some Content.corrupt ∧
      (processFile "src" "bak" 4 4 ⟨false, false⟩ fsCorrupt "x.png").1.lookup ("src", "x.png") =
        none)) :=
  ⟨by decide, by decide,
   backup_safety_trichotomy "src" "bak" 4 4 ⟨false, false⟩ fsCorrupt "x.png"
     Content.corrupt (by decide) (by decide)⟩

/-- C7 (confirmed): whenever the per-file pipeline reports success, the
image written back to the source path has height exactly the target height
and width exactly the target width, whatever the input image's dimensions
were. -/
theorem resize_exactness (tf bf : String) (w h : Nat) (flt : Faults) (fs : FS)
    (filename : String) (hh : 0 < h)
    (hok : (processFile tf bf w h flt fs filename).2 = .fileOk filename) :
    ∃ out, (processFile tf bf w h flt fs filename).1.lookup (tf, filename) =
        some (.png out) ∧ height out = h ∧ width out = w := by
  by_cases hmv : flt.moveFails = true
  · simp [processFile, hmv] at hok
  · rw [Bool.not_eq_true] at hmv
    cases hsrc : fs.lookup (tf, filename) with
    | none => simp [processFile, hmv, hsrc] at hok
    | some c =>
      cases c with
      | corrupt => simp [processFile, hmv, hsrc] at hok
      | png img =>
        by_cases hsv : flt.saveFails = true
        · simp [processFile, hmv, hsrc, hsv] at hok
        · rw [Bool.not_eq_true] at hsv
          refine ⟨pilResize (trim_transparent_edges img) w h, ?_,
            height_pilResize _ _ _, width_pilResize _ _ _ hh⟩
          simp only [processFile, hmv, Bool.false_eq_true, if_false, hsrc, hsv]
          exact lookup_setFile_same _ _ _

theorem resize_exactness_witness :
    (0 : Nat) < 2796 ∧
    (processFile "src" "bak" 1290 2796 ⟨false, false⟩
        (FS.mk ["src", "bak"] [(("src", "x.png"), Content.png cornerImg)]) "x.png").2 =
      .fileOk "x.png" ∧
    ∃ out, (processFile "src" "bak" 1290 2796 ⟨false, false⟩
        (FS.mk ["src", "bak"] [(("src", "x.png"), Content.png cornerImg)]) "x.png").1.lookup
          ("src", "x.png") = some (.png out) ∧ height out = 2796 ∧ width out = 1290 :=
  ⟨by decide, by decide,
   resize_exactness "src" "bak" 1290 2796 ⟨false, false⟩
     (FS.mk ["src", "bak"] [(("src", "x.png"), Content.png cornerImg)]) "x.png"
     (by decide) (by decide)⟩

/-- C8 counterexample: with an existing source folder holding no files and a
missing backup folder, the routine still creates the backup directory — a
filesystem mutation — so the claim that zero filesystem changes happen is
false as stated. -/
theorem empty_folder_creates_backup_dir :
    fsEmptySrc.isdir "src" = true ∧
    eligible fsEmptySrc "src" = [] ∧
    fsEmptySrc.isdir "bak" = false ∧
    (resize_replace_and_backup "src" "bak" 4 4 (fun _ => ⟨false, false⟩) fsEmptySrc).1.isdir
      "bak" = true ∧
    (resize_replace_and_backup "src" "bak" 4 4 (fun _ => ⟨false, false⟩) fsEmptySrc).1 ≠
      fsEmptySrc := by
  decide

/-- C8 (corrected): with an existing source folder holding no eligible
`.png` entries the routine reports informational status and neither moves
nor writes any file — the file table is untouched — but it does create the
backup directory first when that directory does not exist; that directory
creation is the only possible filesystem change. -/
theorem no_eligible_files_no_file_mutations (tf bf : String) (w h : Nat)
    (faults : String → Faults) (fs : FS)
    (hdir : fs.isdir tf = true)
    (hempty : eligible fs tf = []) :
    (resize_replace_and_backup tf bf w h faults fs).1.files = fs.files ∧
    (if fs.isdir bf
     then resize_replace_and_backup tf bf w h faults fs = (fs, [.infoNoPngs tf])
     else resize_replace_and_backup tf bf w h faults fs =
       (fs.mkdir bf, [.infoCreatedBackup bf, .infoNoPngs tf])) := by
  unfold eligible at hempty
  have hforall : ∀ a ∈ fs.listdir tf, isPngName a = false := by
    intro a ha
    rw [Bool.eq_false_iff]
    exact List.filter_eq_nil_iff.mp hempty a ha
  by_cases hb : fs.isdir bf = true
  · simp [resize_replace_and_backup, hdir, hb, hempty, hforall]
  · rw [Bool.not_eq_true] at hb
    simp [resize_replace_and_backup, hdir, hb, listdir_mkdir, files_mkdir, hempty, hforall]

theorem no_eligible_files_no_file_mutations_witness :
    fsEmptySrc.isdir "src" = true ∧
    eligible fsEmptySrc "src" = [] ∧
    ((resize_replace_and_backup "src" "bak" 4 4 (fun _ => ⟨false, false⟩) fsEmptySrc).1.files =
      fsEmptySrc.files ∧
    (if fsEmptySrc.isdir "bak"
     then resize_replace_and_backup "src" "bak" 4 4 (fun _ => ⟨false, false⟩) fsEmptySrc =
       (fsEmptySrc, [.infoNoPngs "src"])
     else resize_replace_and_backup "src" "bak" 4 4 (fun _ => ⟨false, false⟩) fsEmptySrc =
       (fsEmptySrc.mkdir "bak", [.infoCreatedBackup "bak", .infoNoPngs "src"]))) :=
  ⟨by decide, by decide,
   no_eligible_files_no_file_mutations "src" "bak" 4 4 (fun _ => ⟨false, false⟩)
     fsEmptySrc (by decide) (by decide)⟩

/-! ### Claim theorems: per-file fault isolation -/

/-- Whatever happens, the per-file pipeline emits exactly the report line
for its own file: success, or a failure tagged with the stage that raised. -/
theorem processFile_report (tf bf : String) (w h : Nat) (flt : Faults) (fs : FS)
    (n : String) : reportFor n (processFile tf bf w h flt fs n).2 := by
  unfold reportFor
  by_cases hmv : flt.moveFails = true
  · exact Or.inr ⟨.moveFailed, by simp [processFile, hmv]⟩
  · rw [Bool.not_eq_true] at hmv
    cases hsrc : fs.lookup (tf, n) with
    | none => exact Or.inr ⟨.moveFailed, by simp [processFile, hmv, hsrc]⟩
    | some c =>
      cases c with
      | corrupt => exact Or.inr ⟨.decodeFailed, by simp [processFile, hmv, hsrc]⟩
      | png im =>
        by_cases hsv : flt.saveFails = true
        · exact Or.inr ⟨.saveFailed, by simp [processFile, hmv, hsrc, hsv]⟩
        · rw [Bool.not_eq_true] at hsv
          exact Or.inl (by simp [processFile, hmv, hsrc, hsv])

/-- The per-file pipeline only ever touches paths carrying its own
filename. -/
theorem processFile_preserves (tf bf : String) (w h : Nat) (flt : Faults) (fs : FS)
    (n : String) (p : FPath) (hne : p.2 ≠ n) :
    (processFile tf bf w h flt fs n).1.lookup p = fs.lookup p := by
  have h1 : p ≠ (tf, n) := by
    intro hh
    exact hne (congrArg Prod.snd hh)
  have h2 : p ≠ (bf, n) := by
    intro hh
    exact hne (congrArg Prod.snd hh)
  by_cases hmv : flt.moveFails = true
  · simp [processFile, hmv]
  · rw [Bool.not_eq_true] at hmv
    cases hsrc : fs.lookup (tf, n) with
    | none => simp [processFile, hmv, hsrc]
    | some c =>
      cases c with
      | corrupt =>
        simp only [processFile, hmv, Bool.false_eq_true, if_false, hsrc]
        rw [lookup_setFile_other _ _ _ _ h2, lookup_removeFile_other _ _ _ h1]
      | png im =>
        by_cases hsv : flt.saveFails = true
        · simp only [processFile, hmv, Bool.false_eq_true, if_false, hsrc, hsv, if_true]
          rw [lookup_setFile_other _ _ _ _ h2, lookup_removeFile_other _ _ _ h1]
        · rw [Bool.not_eq_true] at hsv
          simp only [processFile, hmv, Bool.false_eq_true, if_false, hsrc, hsv]
          rw [lookup_setFile_other _ _ _ _ h1, lookup_setFile_other _ _ _ _ h2,
            lookup_removeFile_other _ _ _ h1]

/-- A fault-free run of the per-file pipeline on a decodable file: the file
is moved to the backup path and the trimmed, resized image is written to
the source path. -/
theorem processFile_success (tf bf : String) (w h : Nat) (fs : FS) (n : String)
    (im : Img) (hsrc : fs.lookup (tf, n) = some (.png im)) :
    processFile tf bf w h ⟨false, false⟩ fs n =
      (((fs.removeFile (tf, n)).setFile (bf, n) (.png im)).setFile (tf, n)
        (.png (pilResize (trim_transparent_edges im) w h)), .fileOk n) := by
  simp [processFile, hsrc]

/-- The loop does not touch paths whose filename is not in its list. -/
theorem processAll_preserves (tf bf : String) (w h : Nat) (faults : String → Faults) :
    ∀ (names : List String) (fs : FS) (p : FPath), p.2 ∉ names →
      (processAll tf bf w h faults fs names).1.lookup p = fs.lookup p := by
  intro names
  induction names with
  | nil =>
    intro fs p _
    rfl
  | cons m rest ih =>
    intro fs p hp
    have h1 : p.2 ≠ m := fun hh => hp (hh ▸ List.mem_cons_self m rest)
    have h2 : p.2 ∉ rest := fun hh => hp (List.mem_cons_of_mem m hh)
    show (processAll tf bf w h faults (processFile tf bf w h (faults m) fs m).1 rest).1.lookup p = _
    rw [ih _ _ h2, processFile_preserves tf bf w h (faults m) fs m p h1]

/-- Induction core of the fault-isolation claim: every file in the list is
reported exactly once (in order, success or tagged failure), and any
fault-free decodable file ends fully processed — original at the backup
path, transformed image at the source path — no matter what happens to the
other files. -/
theorem processAll_spec (tf bf : String) (w h : Nat) (faults : String → Faults)
    (hfolders : tf ≠ bf) :
    ∀ (names : List String) (fs : FS), names.Nodup →
      List.Forall₂ (fun n line => reportFor n line) names
        (processAll tf bf w h faults fs names).2 ∧
      (∀ n ∈ names, faults n = ⟨false, false⟩ →
        ∀ im, fs.lookup (tf, n) = some (.png im) →
          (processAll tf bf w h faults fs names).1.lookup (tf, n) =
            some (.png (pilResize (trim_transparent_edges im) w h)) ∧
          (processAll tf bf w h faults fs names).1.lookup (bf, n) = some (.png im)) := by
  intro names
  induction names with
  | nil =>
    intro fs _
    refine ⟨List.Forall₂.nil, ?_⟩
    intro n hn
    cases hn
  | cons m rest ih =>
    intro fs hnodup
    obtain ⟨hmnotin, hnd2⟩ := List.nodup_cons.mp hnodup
    constructor
    · show List.Forall₂ _ (m :: rest)
        ((processFile tf bf w h (faults m) fs m).2 ::
          (processAll tf bf w h faults (processFile tf bf w h (faults m) fs m).1 rest).2)
      exact List.Forall₂.cons (processFile_report tf bf w h (faults m) fs m)
        ((ih _ hnd2).1)
    · intro n hn hfl im hsrcn
      have hbt : ((bf, n) : FPath) ≠ (tf, n) := by
        intro hh
        exact hfolders (congrArg Prod.fst hh).symm
      rcases List.mem_cons.mp hn with rfl | hn2
      · have hfs1 : (processFile tf bf w h (faults n) fs n).1 =
            ((fs.removeFile (tf, n)).setFile (bf, n) (.png im)).setFile (tf, n)
              (.png (pilResize (trim_transparent_edges im) w h)) := by
          rw [hfl, processFile_success tf bf w h fs n im hsrcn]
        constructor
        · show (processAll tf bf w h faults
              (processFile tf bf w h (faults n) fs n).1 rest).1.lookup (tf, n) = _
          rw [processAll_preserves tf bf w h faults rest _ (tf, n) hmnotin, hfs1]
          exact lookup_setFile_same _ _ _
        · show (processAll tf bf w h faults
              (processFile tf bf w h (faults n) fs n).1 rest).1.lookup (bf, n) = _
          rw [processAll_preserves tf bf w h faults rest _ (bf, n) hmnotin, hfs1]
          rw [lookup_setFile_other _ _ _ _ hbt]
          exact lookup_setFile_same _ _ _
      · have hnm : n ≠ m := by
          rintro rfl
          exact hmnotin hn2
        have hpres := processFile_preserves tf bf w h (faults m) fs m (tf, n) hnm
        exact (ih _ hnd2).2 n hn2 hfl im (by rw [hpres]; exact hsrcn)

/-- C4 (confirmed): with at least one eligible file, the batch reports the
file count, then exactly one per-file line for every eligible file in
order — success or a failure tagged with its cause — and finally the
overall completion line; a failure of one file never prevents another:
every fault-free decodable file ends fully processed (original at the
backup path, transformed image at the source path) regardless of the
faults or contents of all other files. -/
theorem per_file_fault_isolation (tf bf : String) (w h : Nat)
    (faults : String → Faults) (fs : FS)
    (hfolders : tf ≠ bf)
    (hdir : fs.isdir tf = true)
    (hne : eligible fs tf ≠ [])
    (hnodup : (eligible fs tf).Nodup) :
    ∃ lines,
      (resize_replace_and_backup tf bf w h faults fs).2 =
        (if fs.isdir bf then ([] : List LogLine) else [.infoCreatedBackup bf]) ++
          .infoCount (eligible fs tf).length :: (lines ++ [.done]) ∧
      List.Forall₂ (fun n line => reportFor n line) (eligible fs tf) lines ∧
      (∀ n ∈ eligible fs tf, faults n = ⟨false, false⟩ →
        ∀ im, fs.lookup (tf, n) = some (.png im) →
          (resize_replace_and_backup tf bf w h faults fs).1.lookup (tf, n) =
            some (.png (pilResize (trim_transparent_edges im) w h)) ∧
          (resize_replace_and_backup tf bf w h faults fs).1.lookup (bf, n) = some (.png im)) := by
  have hq : ((fs.listdir tf).filter isPngName).isEmpty = false := by
    rw [List.isEmpty_eq_false]
    exact hne
  by_cases hb : fs.isdir bf = true
  · have hrun : resize_replace_and_backup tf bf w h faults fs =
        ((processAll tf bf w h faults fs (eligible fs tf)).1,
          .infoCount (eligible fs tf).length ::
            ((processAll tf bf w h faults fs (eligible fs tf)).2 ++ [.done])) := by
      simp [resize_replace_and_backup, hdir, hb, hq, eligible]
    obtain ⟨hfa, hsucc⟩ := processAll_spec tf bf w h faults hfolders (eligible fs tf) fs hnodup
    refine ⟨(processAll tf bf w h faults fs (eligible fs tf)).2, ?_, hfa, ?_⟩
    · rw [hrun, hb]
      simp
    · intro n hn hfl im hsrcn
      rw [hrun]
      exact hsucc n hn hfl im hsrcn
  · rw [Bool.not_eq_true] at hb
    have hex : ∃ x ∈ fs.listdir tf, isPngName x = true := by
      by_contra hno
      push_neg at hno
      apply hne
      unfold eligible
      rw [List.filter_eq_nil_iff]
      intro a ha
      simpa using hno a ha
    have hq2 : (((fs.mkdir bf).listdir tf).filter isPngName).isEmpty = false := hq
    have hrun : resize_replace_and_backup tf bf w h faults fs =
        ((processAll tf bf w h faults (fs.mkdir bf) (eligible fs tf)).1,
          .infoCreatedBackup bf :: .infoCount (eligible fs tf).length ::
            ((processAll tf bf w h faults (fs.mkdir bf) (eligible fs tf)).2 ++ [.done])) := by
      simp [resize_replace_and_backup, hdir, hb, hq2, eligible, listdir_mkdir, hex]
    obtain ⟨hfa, hsucc⟩ := processAll_spec tf bf w h faults hfolders (eligible fs tf)
      (fs.mkdir bf) hnodup
    refine ⟨(processAll tf bf w h faults (fs.mkdir bf) (eligible fs tf)).2, ?_, hfa, ?_⟩
    · rw [hrun, hb]
      simp
    · intro n hn hfl im hsrcn
      rw [hrun]
      exact hsucc n hn hfl im (by rw [lookup_mkdir]; exact hsrcn)

theorem per_file_fault_isolation_witness :
    ∃ lines,
      (resize_replace_and_backup "src" "bak" 2 2 (fun _ => ⟨false, false⟩) wFS).2 =
        (if wFS.isdir "bak" then ([] : List LogLine) else [.infoCreatedBackup "bak"]) ++
          .infoCount (eligible wFS "src").length :: (lines ++ [.done]) ∧
      List.Forall₂ (fun n line => reportFor n line) (eligible wFS "src") lines ∧
      (∀ n ∈ eligible wFS "src", (fun _ : String => (⟨false, false⟩ : Faults)) n = ⟨false, false⟩ →
        ∀ im, wFS.lookup ("src", n) = some (.png im) →
          (resize_replace_and_backup "src" "bak" 2 2 (fun _ => ⟨false, false⟩) wFS).1.lookup
              ("src", n) = some (.png (pilResize (trim_transparent_edges im) 2 2)) ∧
          (resize_replace_and_backup "src" "bak" 2 2 (fun _ => ⟨false, false⟩) wFS).1.lookup
              ("bak", n) = some (.png im)) :=
  per_file_fault_isolation "src" "bak" 2 2 (fun _ => ⟨false, false⟩) wFS
    (by decide) (by decide) (by decide) (by decide)

/-! ### Generic list helpers for the trim proofs -/

theorem headD_mem {l : List Nat} (h : l ≠ []) : l.headD 0 ∈ l := by
  cases l with
  | nil => exact absurd rfl h
  | cons a t => simp

theorem getLastD_mem : ∀ (l : List Nat) (d : Nat), l ≠ [] → l.getLastD d ∈ l := by
  intro l
  induction l with
  | nil => intro d h; exact absurd rfl h
  | cons a t ih =>
    intro d _
    rw [List.getLastD_cons]
    cases t with
    | nil => simp [List.getLastD_nil]
    | cons b t2 => exact List.mem_cons_of_mem a (ih a (by simp))

theorem getLastD_append_singleton : ∀ (l : List Nat) (a d : Nat), (l ++ [a]).getLastD d = a := by
  intro l
  induction l with
  | nil => intro a d; rfl
  | cons b t ih => intro a d; rw [List.cons_append, List.getLastD_cons, ih]

theorem headD_le_of_sorted {l : List Nat} (hs : l.Pairwise (· < ·)) {x : Nat}
    (hx : x ∈ l) : l.headD 0 ≤ x := by
  cases l with
  | nil => cases hx
  | cons a t =>
    rw [List.headD_cons]
    rcases List.mem_cons.mp hx with rfl | h
    · exact Nat.le_refl x
    · exact Nat.le_of_lt ((List.pairwise_cons.mp hs).1 x h)

theorem le_getLastD_aux : ∀ (t : List Nat) (d : Nat), t.Pairwise (· < ·) →
    (∀ y ∈ t, d ≤ y) → ∀ x, (x = d ∨ x ∈ t) → x ≤ t.getLastD d := by
  intro t
  induction t with
  | nil =>
    intro d _ _ x hx
    rcases hx with rfl | h
    · exact Nat.le_refl x
    · cases h
  | cons b t2 ih =>
    intro d hs hd x hx
    rw [List.getLastD_cons]
    have hs2 := (List.pairwise_cons.mp hs).2
    have hb2 : ∀ y ∈ t2, b ≤ y :=
      fun y hy => Nat.le_of_lt ((List.pairwise_cons.mp hs).1 y hy)
    rcases hx with rfl | hx2
    · exact Nat.le_trans (hd b (List.mem_cons_self b t2)) (ih b hs2 hb2 b (Or.inl rfl))
    · rcases List.mem_cons.mp hx2 with hx3 | hx3
      · rw [hx3]
        exact ih b hs2 hb2 b (Or.inl rfl)
      · exact ih b hs2 hb2 x (Or.inr hx3)

theorem le_getLastD_of_sorted {l : List Nat} (hs : l.Pairwise (· < ·)) {x : Nat}
    (hx : x ∈ l) : x ≤ l.getLastD 0 := by
  cases l with
  | nil => cases hx
  | cons a t =>
    rw [List.getLastD_cons]
    have hs2 := (List.pairwise_cons.mp hs).2
    have ha : ∀ y ∈ t, a ≤ y :=
      fun y hy => Nat.le_of_lt ((List.pairwise_cons.mp hs).1 y hy)
    rcases List.mem_cons.mp hx with rfl | h
    · exact le_getLastD_aux t x hs2 ha x (Or.inl rfl)
    · exact le_getLastD_aux t a hs2 ha x (Or.inr h)

theorem pairwise_filter_range (n : Nat) (p : Nat → Bool) :
    ((List.range n).filter p).Pairwise (· < ·) :=
  (List.pairwise_lt_range n).filter p

theorem headD_filter_range_of_pos (n : Nat) (p : Nat → Bool) (h0 : p 0 = true)
    (hn : 0 < n) : ((List.range n).filter p).headD 0 = 0 := by
  cases n with
  | zero => exact absurd hn (by simp)
  | succ k =>
    rw [List.range_succ_eq_map, List.filter_cons, h0, if_pos rfl, List.headD_cons]

theorem getLastD_filter_range_of_pos (n : Nat) (p : Nat → Bool) (h : p n = true) :
    ((List.range (n + 1)).filter p).getLastD 0 = n := by
  rw [List.range_succ, List.filter_append]
  have hone : List.filter p [n] = [n] := by
    rw [List.filter_cons, h, if_pos rfl]
    rfl
  rw [hone, getLastD_append_singleton]

theorem ne_nil_of_idxAny {l : List Nat} (h : idxAny l = true) : l ≠ [] := by
  intro hl
  subst hl
  simp [idxAny] at h

/-! ### Characterizations of content rows and columns -/

theorem mem_non_transparent_rows (img : Img) (x : Nat) :
    x ∈ non_transparent_rows img ↔ x < height img ∧ rowHasContent img x = true := by
  simp [non_transparent_rows, List.mem_filter, List.mem_range]

theorem mem_non_transparent_cols (img : Img) (x : Nat) :
    x ∈ non_transparent_cols img ↔ x < width img ∧ colHasContent img x = true := by
  simp [non_transparent_cols, List.mem_filter, List.mem_range]

theorem rowHasContent_iff (img : Img) (i : Nat) :
    rowHasContent img i = true ↔
      ∃ j, ∃ hj : j < (img.getD i []).length, 0 < ((img.getD i [])[j]).a := by
  unfold rowHasContent
  rw [List.any_eq_true]
  constructor
  · rintro ⟨p, hp, hap⟩
    rcases List.mem_iff_getElem.mp hp with ⟨j, hj, hjp⟩
    exact ⟨j, hj, by rw [hjp]; simpa [hasAlpha] using hap⟩
  · rintro ⟨j, hj, hja⟩
    exact ⟨(img.getD i [])[j], List.getElem_mem hj, by simpa [hasAlpha] using hja⟩

theorem colHasContent_iff (img : Img) (j : Nat) :
    colHasContent img j = true ↔
      ∃ i, ∃ hi : i < img.length, 0 < ((img[i]).getD j defPixel).a := by
  unfold colHasContent
  rw [List.any_eq_true]
  constructor
  · rintro ⟨row, hrow, hj⟩
    rcases List.mem_iff_getElem.mp hrow with ⟨i, hi, hirow⟩
    exact ⟨i, hi, by rw [hirow]; simpa [hasAlpha] using hj⟩
  · rintro ⟨i, hi, hia⟩
    exact ⟨img[i], List.getElem_mem hi, by simpa [hasAlpha] using hia⟩

/-! ### Crop lemmas -/

theorem length_crop (img : Img) (l t r b : Nat) :
    (crop img l t r b).length = min (b - t) (img.length - t) := by
  simp [crop, List.length_take, List.length_drop]

theorem getElem?_crop (img : Img) (l t r b i : Nat) (hi : i < b - t) :
    (crop img l t r b)[i]? = (img[t + i]?).map (fun row => (row.drop l).take (r - l)) := by
  unfold crop
  rw [List.getElem?_map, List.getElem?_take, if_pos hi, List.getElem?_drop]

theorem getElem?_slice (row : List Pixel) (l r j : Nat) (hj : j < r - l) :
    ((row.drop l).take (r - l))[j]? = row[l + j]? := by
  rw [List.getElem?_take, if_pos hj, List.getElem?_drop]

theorem pixelAt_crop (img : Img) (l t r b i j : Nat)
    (hi : i < b - t) (hik : t + i < img.length) (hj : j < r - l) :
    pixelAt (crop img l t r b) i j = pixelAt img (t + i) (l + j) := by
  unfold pixelAt
  have h1 : (crop img l t r b).getD i [] = ((img[t + i]).drop l).take (r - l) := by
    rw [List.getD_eq_getElem?_getD, getElem?_crop img l t r b i hi,
      List.getElem?_eq_getElem hik]
    rfl
  have h2 : img.getD (t + i) [] = img[t + i] := List.getD_eq_getElem _ _ hik
  rw [h1, h2, List.getD_eq_getElem?_getD, List.getD_eq_getElem?_getD,
    getElem?_slice _ _ _ _ hj]

theorem length_row_getD {img : Img} (hrect : Rect img) {i : Nat} (hi : i < img.length) :
    (img.getD i []).length = width img := by
  rw [List.getD_eq_getElem _ _ hi]
  exact hrect _ (List.getElem_mem hi)

theorem width_crop_of_rect {img : Img} (hrect : Rect img) (l t r b : Nat)
    (hbt : 0 < b - t) (htl : t < img.length) :
    width (crop img l t r b) = min (r - l) (width img - l) := by
  have h0 : (crop img l t r b)[0]? = some (((img[t]).drop l).take (r - l)) := by
    rw [getElem?_crop img l t r b 0 hbt, Nat.add_zero, List.getElem?_eq_getElem htl]
    rfl
  cases hcrop : crop img l t r b with
  | nil => rw [hcrop] at h0; simp at h0
  | cons row0 rest =>
    rw [hcrop] at h0
    simp only [List.getElem?_cons_zero, Option.some_inj] at h0
    show row0.length = min (r - l) (width img - l)
    rw [h0, List.length_take, List.length_drop, hrect _ (List.getElem_mem htl)]

/-- Dimensions, rectangularity and pixel content of a crop to the inclusive
box `[T, B] × [L, R]` of a rectangular image. -/
theorem crop_dims_and_pixels (img : Img) (hrect : Rect img) (L T R B : Nat)
    (hTB : T ≤ B) (hBlt : B < img.length) (hLR : L ≤ R) (hRlt : R < width img) :
    (crop img L T (R + 1) (B + 1)).length = B + 1 - T ∧
    width (crop img L T (R + 1) (B + 1)) = R + 1 - L ∧
    Rect (crop img L T (R + 1) (B + 1)) ∧
    ∀ i j, i < B + 1 - T → j < R + 1 - L →
      pixelAt (crop img L T (R + 1) (B + 1)) i j = pixelAt img (T + i) (L + j) := by
  have hlen : (crop img L T (R + 1) (B + 1)).length = B + 1 - T := by
    rw [length_crop]
    omega
  have hw : width (crop img L T (R + 1) (B + 1)) = R + 1 - L := by
    rw [width_crop_of_rect hrect L T (R + 1) (B + 1) (by omega) (by omega)]
    omega
  have hrectres : Rect (crop img L T (R + 1) (B + 1)) := by
    intro row' hrow'
    have hrow2 := hrow'
    unfold crop at hrow2
    rcases List.mem_map.mp hrow2 with ⟨row, hrowmem, hrowslice⟩
    have hrowimg : row ∈ img := List.mem_of_mem_drop (List.mem_of_mem_take hrowmem)
    rw [hw, ← hrowslice, List.length_take, List.length_drop, hrect row hrowimg]
    omega
  refine ⟨hlen, hw, hrectres, fun i j hi hj => ?_⟩
  exact pixelAt_crop img L T (R + 1) (B + 1) i j hi (by omega) hj

theorem crop_full {img : Img} (hrect : Rect img) :
    crop img 0 0 (width img) (height img) = img := by
  unfold crop
  rw [Nat.sub_zero, Nat.sub_zero, List.drop_zero]
  rw [show height img = img.length from rfl, List.take_length]
  have hall : ∀ row ∈ img, ((row.drop 0).take (width img)) = id row := by
    intro row hrow
    rw [List.drop_zero, ← hrect row hrow, List.take_length]
    rfl
  rw [List.map_congr_left hall, List.map_id]

/-- The two branches of `trim_transparent_edges`, as equations. -/
theorem trim_crop_eq (img : Img)
    (hc : (idxAny (non_transparent_rows img) && idxAny (non_transparent_cols img)) = true) :
    trim_transparent_edges img =
      crop img ((non_transparent_cols img).headD 0) ((non_transparent_rows img).headD 0)
        ((non_transparent_cols img).getLastD 0 + 1)
        ((non_transparent_rows img).getLastD 0 + 1) := by
  unfold trim_transparent_edges
  rw [hc]
  rfl

theorem trim_id_of_no_idx (img : Img)
    (hc : (idxAny (non_transparent_rows img) && idxAny (non_transparent_cols img)) = false) :
    trim_transparent_edges img = img := by
  unfold trim_transparent_edges
  rw [hc]
  rfl

/-- A content pixel in row `i` also witnesses content in its column. -/
theorem content_cell_row_to_col (img : Img) {i : Nat} (hi : i < img.length)
    (hrc : rowHasContent img i = true) :
    ∃ j, j < (img.getD i []).length ∧ 0 < (pixelAt img i j).a ∧
      colHasContent img j = true := by
  rcases (rowHasContent_iff img i).mp hrc with ⟨j, hj, hja⟩
  have hpix : pixelAt img i j = (img.getD i [])[j] := by
    unfold pixelAt
    exact List.getD_eq_getElem _ _ hj
  refine ⟨j, hj, by rw [hpix]; exact hja, ?_⟩
  rw [colHasContent_iff]
  refine ⟨i, hi, ?_⟩
  have h2 : img.getD i [] = img[i] := List.getD_eq_getElem _ _ hi
  have h3 : (img[i]).getD j defPixel = (img.getD i [])[j] := by
    rw [← h2, List.getD_eq_getElem _ _ hj]
  rw [h3]
  exact hja

/-- A content pixel in column `j` also witnesses content in its row. -/
theorem content_cell_col_to_row (img : Img) {j : Nat}
    (hcc : colHasContent img j = true) :
    ∃ i, i < img.length ∧ 0 < (pixelAt img i j).a ∧
      rowHasContent img i = true := by
  rcases (colHasContent_iff img j).mp hcc with ⟨i, hi, hia⟩
  have h2 : img.getD i [] = img[i] := List.getD_eq_getElem _ _ hi
  have hpix : pixelAt img i j = (img[i]).getD j defPixel := by
    unfold pixelAt
    rw [h2]
  refine ⟨i, hi, by rw [hpix]; exact hia, ?_⟩
  rw [rowHasContent_iff]
  by_cases hj : j < (img[i]).length
  · have hjlen : j < (img.getD i []).length := by rw [h2]; exact hj
    refine ⟨j, hjlen, ?_⟩
    have h4 : (img.getD i [])[j] = (img[i]).getD j defPixel := by
      rw [List.getD_eq_getElem _ _ hj]
      simp only [h2]
    rw [h4]
    exact hia
  · exfalso
    rw [List.getD_eq_default _ _ (by omega)] at hia
    simp [defPixel] at hia

/-- Register row content from an explicit content pixel. -/
theorem rowHasContent_of_pixel (res : Img) (i j : Nat)
    (hjlen : j < (res.getD i []).length) (ha : 0 < (pixelAt res i j).a) :
    rowHasContent res i = true := by
  rw [rowHasContent_iff]
  refine ⟨j, hjlen, ?_⟩
  have hpix : pixelAt res i j = (res.getD i [])[j] := by
    unfold pixelAt
    rw [List.getD_eq_getElem _ _ hjlen]
  rw [← hpix]
  exact ha

/-- Register column content from an explicit content pixel. -/
theorem colHasContent_of_pixel (res : Img) (i j : Nat)
    (hilen : i < res.length) (ha : 0 < (pixelAt res i j).a) :
    colHasContent res j = true := by
  rw [colHasContent_iff]
  refine ⟨i, hilen, ?_⟩
  have h2 : res.getD i [] = res[i] := List.getD_eq_getElem _ _ hilen
  have hpix : pixelAt res i j = (res[i]).getD j defPixel := by
    unfold pixelAt
    rw [h2]
  rw [← hpix]
  exact ha

/-- A rectangular image with content touching all four borders is a fixed
point of the trimming function. -/
theorem trim_fixed_point (res : Img) (hrect : Rect res)
    (hh : 0 < res.length) (hw : 0 < width res)
    (hr0 : rowHasContent res 0 = true)
    (hrl : rowHasContent res (res.length - 1) = true)
    (hc0 : colHasContent res 0 = true)
    (hcl : colHasContent res (width res - 1) = true) :
    trim_transparent_edges res = res := by
  have htop : (non_transparent_rows res).headD 0 = 0 :=
    headD_filter_range_of_pos _ _ hr0 hh
  have hbot : (non_transparent_rows res).getLastD 0 = res.length - 1 := by
    have hk : height res = (res.length - 1) + 1 := by
      show res.length = _
      omega
    unfold non_transparent_rows
    rw [hk, getLastD_filter_range_of_pos (res.length - 1) _ hrl]
  have hleft : (non_transparent_cols res).headD 0 = 0 :=
    headD_filter_range_of_pos _ _ hc0 hw
  have hright : (non_transparent_cols res).getLastD 0 = width res - 1 := by
    have hk : width res = (width res - 1) + 1 := by omega
    unfold non_transparent_cols
    rw [hk, getLastD_filter_range_of_pos (width res - 1) _ hcl]
    omega
  by_cases hc : (idxAny (non_transparent_rows res) && idxAny (non_transparent_cols res)) = true
  · rw [trim_crop_eq res hc, htop, hbot, hleft, hright]
    have e1 : res.length - 1 + 1 = res.length := by omega
    have e2 : width res - 1 + 1 = width res := by omega
    rw [e1, e2]
    exact crop_full hrect
  · rw [Bool.not_eq_true] at hc
    exact trim_id_of_no_idx res hc

/-! ### Claim theorems: the trimming function -/

/-- C5 helper: a fully transparent image has no content rows. -/
theorem rowHasContent_eq_false (img : Img)
    (hall : ∀ row ∈ img, ∀ p ∈ row, p.a = 0) (i : Nat) :
    rowHasContent img i = false := by
  unfold rowHasContent
  rw [List.any_eq_false]
  intro p hp
  have hrow : ∀ q ∈ img.getD i [], q.a = 0 := by
    by_cases hi : i < img.length
    · rw [List.getD_eq_getElem _ _ hi]
      exact hall _ (List.getElem_mem hi)
    · rw [List.getD_eq_default _ _ (by omega)]
      intro q hq
      cases hq
  simp [hasAlpha, hrow p hp]

/-- C5 (confirmed): on an image all of whose pixels have alpha zero, the
trim function returns the image itself — same dimensions, same pixel data —
and this is handled as a normal case, not an error. -/
theorem trim_noop_on_fully_transparent (img : Img)
    (hall : ∀ row ∈ img, ∀ p ∈ row, p.a = 0) :
    trim_transparent_edges img = img := by
  have h1 : non_transparent_rows img = [] := by
    unfold non_transparent_rows
    rw [List.filter_eq_nil_iff]
    intro i _
    simp [rowHasContent_eq_false img hall i]
  unfold trim_transparent_edges
  rw [h1]
  simp [idxAny]

theorem trim_noop_on_fully_transparent_witness :
    (∀ row ∈ ([[defPixel, defPixel], [defPixel, defPixel]] : Img), ∀ p ∈ row, p.a = 0) ∧
    trim_transparent_edges [[defPixel, defPixel], [defPixel, defPixel]] =
      [[defPixel, defPixel], [defPixel, defPixel]] :=
  ⟨by decide, trim_noop_on_fully_transparent _ (by decide)⟩

/-- C1 (code bug, evaluated at the failing input): `cornerImg` has exactly
one pixel with positive alpha, at row 0, column 0, so the tight bounding
box of the claim is `(0, 0, 1, 1)` and the trimmed result should be the
1×1 sub-image; but the code returns the 2×2 input unchanged, keeping a
fully transparent border row and column.  The cause is the truthiness test
`non_transparent_rows.any()` on the index array `[0]`, which is false, so
the fully-transparent early return misfires. -/
theorem trim_not_tight_at_corner :
    trim_transparent_edges cornerImg = cornerImg ∧
    (0 < (pixelAt cornerImg 0 0).a ∧ (pixelAt cornerImg 0 1).a = 0 ∧
      (pixelAt cornerImg 1 0).a = 0 ∧ (pixelAt cornerImg 1 1).a = 0) ∧
    crop cornerImg 0 0 1 1 = [[⟨255, 0, 0, 255⟩]] ∧
    trim_transparent_edges cornerImg ≠ crop cornerImg 0 0 1 1 := by
  decide

/-- C10 (confirmed): trim never enlarges — the result's height and width
are bounded by the input's, and every pixel of the result is the input's
pixel at a fixed crop offset. -/
theorem trim_never_enlarges (img : Img) (hrect : Rect img) :
    height (trim_transparent_edges img) ≤ height img ∧
    width (trim_transparent_edges img) ≤ width img ∧
    ∃ dy dx, ∀ i j, i < height (trim_transparent_edges img) →
      j < width (trim_transparent_edges img) →
      pixelAt (trim_transparent_edges img) i j = pixelAt img (dy + i) (dx + j) := by
  by_cases hc : (idxAny (non_transparent_rows img) && idxAny (non_transparent_cols img)) = true
  · have htrim : trim_transparent_edges img =
        crop img ((non_transparent_cols img).headD 0) ((non_transparent_rows img).headD 0)
          ((non_transparent_cols img).getLastD 0 + 1)
          ((non_transparent_rows img).getLastD 0 + 1) := by
      unfold trim_transparent_edges
      rw [hc]
      rfl
    rw [htrim]
    rw [Bool.and_eq_true] at hc
    have hrne : non_transparent_rows img ≠ [] := ne_nil_of_idxAny hc.1
    have hcne : non_transparent_cols img ≠ [] := ne_nil_of_idxAny hc.2
    obtain ⟨htoplt, -⟩ := (mem_non_transparent_rows img _).mp (headD_mem hrne)
    obtain ⟨hbotlt, -⟩ := (mem_non_transparent_rows img _).mp (getLastD_mem _ 0 hrne)
    obtain ⟨hleftlt, -⟩ := (mem_non_transparent_cols img _).mp (headD_mem hcne)
    obtain ⟨hrightlt, -⟩ := (mem_non_transparent_cols img _).mp (getLastD_mem _ 0 hcne)
    have htb : (non_transparent_rows img).headD 0 ≤ (non_transparent_rows img).getLastD 0 :=
      headD_le_of_sorted (pairwise_filter_range _ _) (getLastD_mem _ 0 hrne)
    have hlr : (non_transparent_cols img).headD 0 ≤ (non_transparent_cols img).getLastD 0 :=
      headD_le_of_sorted (pairwise_filter_range _ _) (getLastD_mem _ 0 hcne)
    have hblen : (non_transparent_rows img).getLastD 0 < img.length := hbotlt
    obtain ⟨h1, h2, -, h4⟩ := crop_dims_and_pixels img hrect
      ((non_transparent_cols img).headD 0) ((non_transparent_rows img).headD 0)
      ((non_transparent_cols img).getLastD 0) ((non_transparent_rows img).getLastD 0)
      htb hblen hlr hrightlt
    refine ⟨?_, ?_, (non_transparent_rows img).headD 0, (non_transparent_cols img).headD 0,
      fun i j hi hj => ?_⟩
    · show _ ≤ img.length
      rw [show height (crop img ((non_transparent_cols img).headD 0)
        ((non_transparent_rows img).headD 0) ((non_transparent_cols img).getLastD 0 + 1)
        ((non_transparent_rows img).getLastD 0 + 1)) =
          (crop img ((non_transparent_cols img).headD 0) ((non_transparent_rows img).headD 0)
          ((non_transparent_cols img).getLastD 0 + 1)
          ((non_transparent_rows img).getLastD 0 + 1)).length from rfl, h1]
      omega
    · rw [h2]
      omega
    · apply h4 i j
      · rw [show height (crop img ((non_transparent_cols img).headD 0)
          ((non_transparent_rows img).headD 0) ((non_transparent_cols img).getLastD 0 + 1)
          ((non_transparent_rows img).getLastD 0 + 1)) =
            (crop img ((non_transparent_cols img).headD 0) ((non_transparent_rows img).headD 0)
            ((non_transparent_cols img).getLastD 0 + 1)
            ((non_transparent_rows img).getLastD 0 + 1)).length from rfl, h1] at hi
        exact hi
      · rw [h2] at hj
        exact hj
  · rw [Bool.not_eq_true] at hc
    have htrim : trim_transparent_edges img = img := by
      unfold trim_transparent_edges
      rw [hc]
      rfl
    rw [htrim]
    exact ⟨Nat.le_refl _, Nat.le_refl _, 0, 0, fun i j hi hj => by simp⟩

/-- C6 (confirmed): trimming is idempotent — applying
`trim_transparent_edges` twice gives the same image as applying it once.
When the first application takes the early-return branch the second one
takes it again; when it crops, the cropped image has content pixels on all
four borders, so the second application is the identity on it. -/
theorem trim_idempotent (img : Img) (hrect : Rect img) :
    trim_transparent_edges (trim_transparent_edges img) = trim_transparent_edges img := by
  by_cases hc : (idxAny (non_transparent_rows img) && idxAny (non_transparent_cols img)) = true
  · have hparts := hc
    rw [Bool.and_eq_true] at hparts
    have htrim := trim_crop_eq img hc
    have hrne : non_transparent_rows img ≠ [] := ne_nil_of_idxAny hparts.1
    have hcne : non_transparent_cols img ≠ [] := ne_nil_of_idxAny hparts.2
    obtain ⟨htoplt, htoprc⟩ := (mem_non_transparent_rows img _).mp (headD_mem hrne)
    obtain ⟨hbotlt, hbotrc⟩ := (mem_non_transparent_rows img _).mp (getLastD_mem _ 0 hrne)
    obtain ⟨hleftlt, hleftcc⟩ := (mem_non_transparent_cols img _).mp (headD_mem hcne)
    obtain ⟨hrightlt, hrightcc⟩ := (mem_non_transparent_cols img _).mp (getLastD_mem _ 0 hcne)
    have htb : (non_transparent_rows img).headD 0 ≤ (non_transparent_rows img).getLastD 0 :=
      headD_le_of_sorted (pairwise_filter_range _ _) (getLastD_mem _ 0 hrne)
    have hlr : (non_transparent_cols img).headD 0 ≤ (non_transparent_cols img).getLastD 0 :=
      headD_le_of_sorted (pairwise_filter_range _ _) (getLastD_mem _ 0 hcne)
    set T := (non_transparent_rows img).headD 0 with hTdef
    set B := (non_transparent_rows img).getLastD 0 with hBdef
    set L := (non_transparent_cols img).headD 0 with hLdef
    set R := (non_transparent_cols img).getLastD 0 with hRdef
    have hblen : B < img.length := hbotlt
    obtain ⟨h1, h2, h3, h4⟩ := crop_dims_and_pixels img hrect L T R B htb hblen hlr hrightlt
    set res := crop img L T (R + 1) (B + 1) with hresdef
    -- content on the top border of the crop
    have hr0 : rowHasContent res 0 = true := by
      obtain ⟨j0, hj0len, hj0a, hj0cc⟩ := content_cell_row_to_col img htoplt htoprc
      have hj0w : j0 < width img := by
        rw [← length_row_getD hrect htoplt]
        exact hj0len
      have hj0mem : j0 ∈ non_transparent_cols img :=
        (mem_non_transparent_cols img j0).mpr ⟨hj0w, hj0cc⟩
      have hLj0 : L ≤ j0 := headD_le_of_sorted (pairwise_filter_range _ _) hj0mem
      have hj0R : j0 ≤ R := le_getLastD_of_sorted (pairwise_filter_range _ _) hj0mem
      have hpix := h4 0 (j0 - L) (by omega) (by omega)
      rw [Nat.add_zero, show L + (j0 - L) = j0 from by omega] at hpix
      apply rowHasContent_of_pixel res 0 (j0 - L)
      · rw [length_row_getD h3 (by omega), h2]
        omega
      · rw [hpix]
        exact hj0a
    -- content on the bottom border of the crop
    have hrl : rowHasContent res (B - T) = true := by
      obtain ⟨j1, hj1len, hj1a, hj1cc⟩ := content_cell_row_to_col img hbotlt hbotrc
      have hj1w : j1 < width img := by
        rw [← length_row_getD hrect hbotlt]
        exact hj1len
      have hj1mem : j1 ∈ non_transparent_cols img :=
        (mem_non_transparent_cols img j1).mpr ⟨hj1w, hj1cc⟩
      have hLj1 : L ≤ j1 := headD_le_of_sorted (pairwise_filter_range _ _) hj1mem
      have hj1R : j1 ≤ R := le_getLastD_of_sorted (pairwise_filter_range _ _) hj1mem
      have hpix := h4 (B - T) (j1 - L) (by omega) (by omega)
      rw [show T + (B - T) = B from by omega, show L + (j1 - L) = j1 from by omega] at hpix
      apply rowHasContent_of_pixel res (B - T) (j1 - L)
      · rw [length_row_getD h3 (by omega), h2]
        omega
      · rw [hpix]
        exact hj1a
    -- content on the left border of the crop
    have hc0 : colHasContent res 0 = true := by
      obtain ⟨i0, hi0len, hi0a, hi0rc⟩ := content_cell_col_to_row img hleftcc
      have hi0mem : i0 ∈ non_transparent_rows img :=
        (mem_non_transparent_rows img i0).mpr ⟨hi0len, hi0rc⟩
      have hTi0 : T ≤ i0 := headD_le_of_sorted (pairwise_filter_range _ _) hi0mem
      have hi0B : i0 ≤ B := le_getLastD_of_sorted (pairwise_filter_range _ _) hi0mem
      have hpix := h4 (i0 - T) 0 (by omega) (by omega)
      rw [Nat.add_zero, show T + (i0 - T) = i0 from by omega] at hpix
      apply colHasContent_of_pixel res (i0 - T) 0
      · rw [h1]
        omega
      · rw [hpix]
        exact hi0a
    -- content on the right border of the crop
    have hcl : colHasContent res (R - L) = true := by
      obtain ⟨i1, hi1len, hi1a, hi1rc⟩ := content_cell_col_to_row img hrightcc
      have hi1mem : i1 ∈ non_transparent_rows img :=
        (mem_non_transparent_rows img i1).mpr ⟨hi1len, hi1rc⟩
      have hTi1 : T ≤ i1 := headD_le_of_sorted (pairwise_filter_range _ _) hi1mem
      have hi1B : i1 ≤ B := le_getLastD_of_sorted (pairwise_filter_range _ _) hi1mem
      have hpix := h4 (i1 - T) (R - L) (by omega) (by omega)
      rw [show T + (i1 - T) = i1 from by omega, show L + (R - L) = R from by omega] at hpix
      apply colHasContent_of_pixel res (i1 - T) (R - L)
      · rw [h1]
        omega
      · rw [hpix]
        exact hi1a
    rw [htrim]
    apply trim_fixed_point res h3 (by rw [h1]; omega) (by rw [h2]; omega)
    · exact hr0
    · rw [show res.length - 1 = B - T from by rw [h1]; omega]
      exact hrl
    · exact hc0
    · rw [show width res - 1 = R - L from by rw [h2]; omega]
      exact hcl
  · rw [Bool.not_eq_true] at hc
    have htrim := trim_id_of_no_idx img hc
    rw [htrim, htrim]

theorem trim_idempotent_witness :
    Rect cornerImg ∧
    trim_transparent_edges (trim_transparent_edges cornerImg) =
      trim_transparent_edges cornerImg :=
  ⟨by decide, trim_idempotent cornerImg (by decide)⟩

theorem trim_never_enlarges_witness :
    Rect centerImg ∧
    (height (trim_transparent_edges centerImg) ≤ height centerImg ∧
     width (trim_transparent_edges centerImg) ≤ width centerImg ∧
     ∃ dy dx, ∀ i j, i < height (trim_transparent_edges centerImg) →
       j < width (trim_transparent_edges centerImg) →
       pixelAt (trim_transparent_edges centerImg) i j = pixelAt centerImg (dy + i) (dx + j)) :=
  ⟨by decide, trim_never_enlarges centerImg (by decide)⟩

end ResizePngs
